import Mathlib

/-!
Verification of the MADMIN machine-firewall engine against its source.

The in-repository Rule Compiler is `updateIptablesPreview` in the firewall
view (src/unnamed/part_004 lines 666-723, identical copy in
src/unnamed/part_005 lines 382-439).  It reads the rule form fields (DOM
string values, where the empty string plays the role of JavaScript
falsiness for an absent field) and builds the iptables invocation by
successive string appends.  We embed each appended chunk as a token-list
segment; `String.intercalate " "` of the token list reproduces the exact
JavaScript string, including the defaulting of table/chain/action.

Chain reordering and priority listing are embedded from
src/frontend/assets/js/views/modules.js (`renderFirewallPriority`): the
drag handler assigns `priority = (index + 1) * 10` in the new visual
order, and the listing sorts each (table, parent_chain) group by
ascending priority with a stable comparison sort.

The persistence bridge is embedded from src/scripts/save-iptables.sh.

Backend pieces that are not in the repository snapshot (the FastAPI
`createRule` validation, the order renormalizer, the base-chain jump
builder) are modelled from the spec and marked as such in their doc
comments.
-/

/-- One firewall rule as read by `updateIptablesPreview` from the rule
form: every field is the DOM string value of the corresponding input
(`""` means the field is unset, matching JavaScript falsiness of the
empty string).  `logPfx` is the `rule-log-prefix` input and `comment`
the `rule-comment` input. -/
structure RuleForm where
  table : String
  chain : String
  action : String
  protocol : String
  port : String
  source : String
  destination : String
  inIface : String
  outIface : String
  state : String
  limitRate : String
  limitBurst : String
  toDest : String
  toSource : String
  toPorts : String
  logPfx : String
  logLevel : String
  rejectWith : String
  comment : String
deriving DecidableEq, Repr

/-- A rule form with every field empty. -/
def emptyRule : RuleForm :=
  ⟨"", "", "", "", "", "", "", "", "", "", "", "", "", "", "", "", "", "", ""⟩

/-- `document.getElementById('rule-table')?.value || 'filter'`. -/
def effTable (r : RuleForm) : String :=
  if r.table = "" then "filter" else r.table

/-- `document.getElementById('rule-chain')?.value || 'INPUT'`. -/
def effChain (r : RuleForm) : String :=
  if r.chain = "" then "INPUT" else r.chain

/-- `document.getElementById('rule-action')?.value || 'ACCEPT'`. -/
def effAction (r : RuleForm) : String :=
  if r.action = "" then "ACCEPT" else r.action

/-- `if (protocol) cmd += \` -p ${protocol}\``. -/
def protoArgs (r : RuleForm) : List String :=
  if r.protocol = "" then [] else ["-p", r.protocol]

/-- `if (source) cmd += \` -s ${source}\``. -/
def srcArgs (r : RuleForm) : List String :=
  if r.source = "" then [] else ["-s", r.source]

/-- `if (destination) cmd += \` -d ${destination}\``. -/
def dstArgs (r : RuleForm) : List String :=
  if r.destination = "" then [] else ["-d", r.destination]

/-- `if (inIface) cmd += \` -i ${inIface}\``. -/
def inIfaceArgs (r : RuleForm) : List String :=
  if r.inIface = "" then [] else ["-i", r.inIface]

/-- `if (outIface) cmd += \` -o ${outIface}\``. -/
def outIfaceArgs (r : RuleForm) : List String :=
  if r.outIface = "" then [] else ["-o", r.outIface]

/-- `if (state) cmd += \` -m state --state ${state}\``. -/
def stateArgs (r : RuleForm) : List String :=
  if r.state = "" then [] else ["-m", "state", "--state", r.state]

/-- Port handling of `updateIptablesPreview`:
`if (port && (protocol === 'tcp' || protocol === 'udp')) { if
(port.includes(',')) cmd += \` -m multiport --dports ${port}\`; else cmd +=
\` --dport ${port}\`; }`.  `port.includes(',')` is the comma appearing
among the characters of the port string, checked here on `String.data`. -/
def portArgs (r : RuleForm) : List String :=
  if r.port ≠ "" ∧ (r.protocol = "tcp" ∨ r.protocol = "udp") then
    if r.port.data.contains ',' then ["-m", "multiport", "--dports", r.port]
    else ["--dport", r.port]
  else []

/-- `if (limitRate) { cmd += \` -m limit --limit ${limitRate}\`; if
(limitBurst) cmd += \` --limit-burst ${limitBurst}\`; }`. -/
def limitArgs (r : RuleForm) : List String :=
  if r.limitRate = "" then []
  else ["-m", "limit", "--limit", r.limitRate] ++
    (if r.limitBurst = "" then [] else ["--limit-burst", r.limitBurst])

/-- `if (action === 'DNAT' && toDest) cmd += \` --to-destination ${toDest}\``. -/
def dnatArgs (r : RuleForm) : List String :=
  if effAction r = "DNAT" ∧ r.toDest ≠ "" then ["--to-destination", r.toDest] else []

/-- `if (action === 'SNAT' && toSource) cmd += \` --to-source ${toSource}\``. -/
def snatArgs (r : RuleForm) : List String :=
  if effAction r = "SNAT" ∧ r.toSource ≠ "" then ["--to-source", r.toSource] else []

/-- `if (['REDIRECT', 'MASQUERADE'].includes(action) && toPorts) cmd += \`
--to-ports ${toPorts}\``. -/
def redirArgs (r : RuleForm) : List String :=
  if (effAction r = "REDIRECT" ∨ effAction r = "MASQUERADE") ∧ r.toPorts ≠ "" then
    ["--to-ports", r.toPorts]
  else []

/-- `if (action === 'LOG') { if (logPrefix) cmd += \` --log-prefix
"${logPrefix}"\`; if (logLevel) cmd += \` --log-level ${logLevel}\`; }` —
the prefix is emitted verbatim between double quotes. -/
def logArgs (r : RuleForm) : List String :=
  if effAction r = "LOG" then
    (if r.logPfx = "" then [] else ["--log-prefix", "\"" ++ r.logPfx ++ "\""]) ++
    (if r.logLevel = "" then [] else ["--log-level", r.logLevel])
  else []

/-- `if (action === 'REJECT' && rejectWith) cmd += \` --reject-with
${rejectWith}\``. -/
def rejectArgs (r : RuleForm) : List String :=
  if effAction r = "REJECT" ∧ r.rejectWith ≠ "" then ["--reject-with", r.rejectWith] else []

/-- The full argument vector built by `updateIptablesPreview`
(src/unnamed/part_004 lines 691-722): the segments in source order.
Joining with single spaces after the program name reproduces the
JavaScript string exactly. -/
def compileRule (r : RuleForm) : List String :=
  ["-t", effTable r, "-A", effChain r] ++
    protoArgs r ++ srcArgs r ++ dstArgs r ++ inIfaceArgs r ++ outIfaceArgs r ++
    stateArgs r ++ portArgs r ++ limitArgs r ++
    ["-j", effAction r] ++
    dnatArgs r ++ snatArgs r ++ redirArgs r ++ logArgs r ++ rejectArgs r

/-- The preview text itself: `iptables` followed by the argument vector,
space separated. -/
def previewText (r : RuleForm) : String :=
  String.intercalate " " ("iptables" :: compileRule r)

example :
    previewText { emptyRule with protocol := "tcp", port := "22", comment := "ssh" } =
      "iptables -t filter -A INPUT -p tcp --dport 22 -j ACCEPT" := rfl

/-- Every string that can appear in the compiled command because some form
field carried it: the defaulted table/chain/action and each raw field
value (the log prefix appears between the double quotes the source adds). -/
def fieldVals (r : RuleForm) : List String :=
  [effTable r, effChain r, effAction r, r.protocol, r.port, r.source, r.destination,
   r.inIface, r.outIface, r.state, r.limitRate, r.limitBurst, r.toDest, r.toSource,
   r.toPorts, "\"" ++ r.logPfx ++ "\"", r.logLevel, r.rejectWith]

/-- Fixed option literals emitted by segments other than the port and
limit segments. -/
def otherLits : List String :=
  ["-t", "-A", "-p", "-s", "-d", "-i", "-o", "-m", "state", "--state", "-j",
   "--to-destination", "--to-source", "--to-ports", "--log-prefix", "--log-level",
   "--reject-with"]

theorem mem_portArgs {r : RuleForm} {t : String} (h : t ∈ portArgs r) :
    t ∈ (["-m", "multiport", "--dports", "--dport"] : List String) ∨ t ∈ fieldVals r := by
  unfold portArgs at h
  split at h
  · split at h <;> simp_all [fieldVals] <;> tauto
  · simp at h

theorem mem_limitArgs {r : RuleForm} {t : String} (h : t ∈ limitArgs r) :
    t ∈ (["-m", "limit", "--limit", "--limit-burst"] : List String) ∨ t ∈ fieldVals r := by
  unfold limitArgs at h
  split at h
  · simp at h
  · rw [List.mem_append] at h
    rcases h with h | h
    · simp_all [fieldVals] <;> tauto
    · split at h <;> simp_all [fieldVals] <;> tauto

theorem mem_logArgs {r : RuleForm} {t : String} (h : t ∈ logArgs r) :
    t ∈ otherLits ∨ t ∈ fieldVals r := by
  unfold logArgs at h
  split at h
  · rw [List.mem_append] at h
    rcases h with h | h <;> split at h <;> simp_all [fieldVals, otherLits] <;> tauto
  · simp at h

set_option maxHeartbeats 1000000 in
/-- Decomposition of the compiled command: every token is a field value,
comes from the port segment, comes from the limit segment, or is one of
the fixed literals of the remaining segments. -/
theorem compile_mem_cases {r : RuleForm} {t : String} (h : t ∈ compileRule r) :
    t ∈ portArgs r ∨ t ∈ limitArgs r ∨ t ∈ fieldVals r ∨ t ∈ otherLits := by
  unfold compileRule at h
  simp only [List.append_assoc, List.mem_append, List.mem_cons,
    List.not_mem_nil, or_false] at h
  rcases h with ((rfl | rfl | rfl | rfl) | h | h | h | h | h | h | h | h |
      (rfl | rfl) | h | h | h | h | h)
  · exact Or.inr (Or.inr (Or.inr (by simp [otherLits])))
  · exact Or.inr (Or.inr (Or.inl (by simp [fieldVals])))
  · exact Or.inr (Or.inr (Or.inr (by simp [otherLits])))
  · exact Or.inr (Or.inr (Or.inl (by simp [fieldVals])))
  · unfold protoArgs at h
    split at h <;> simp_all [fieldVals, otherLits] <;> tauto
  · unfold srcArgs at h
    split at h <;> simp_all [fieldVals, otherLits] <;> tauto
  · unfold dstArgs at h
    split at h <;> simp_all [fieldVals, otherLits] <;> tauto
  · unfold inIfaceArgs at h
    split at h <;> simp_all [fieldVals, otherLits] <;> tauto
  · unfold outIfaceArgs at h
    split at h <;> simp_all [fieldVals, otherLits] <;> tauto
  · unfold stateArgs at h
    split at h <;> simp_all [fieldVals, otherLits] <;> tauto
  · exact Or.inl h
  · exact Or.inr (Or.inl h)
  · exact Or.inr (Or.inr (Or.inr (by simp [otherLits])))
  · exact Or.inr (Or.inr (Or.inl (by simp [fieldVals])))
  · unfold dnatArgs at h
    split at h <;> simp_all [fieldVals, otherLits] <;> tauto
  · unfold snatArgs at h
    split at h <;> simp_all [fieldVals, otherLits] <;> tauto
  · unfold redirArgs at h
    split at h <;> simp_all [fieldVals, otherLits] <;> tauto
  · rcases mem_logArgs h with h | h
    · exact Or.inr (Or.inr (Or.inr h))
    · exact Or.inr (Or.inr (Or.inl h))
  · unfold rejectArgs at h
    split at h <;> simp_all [fieldVals, otherLits] <;> tauto

theorem portArgs_eq_nil {r : RuleForm}
    (h : ¬(r.port ≠ "" ∧ (r.protocol = "tcp" ∨ r.protocol = "udp"))) :
    portArgs r = [] := by
  unfold portArgs
  rw [if_neg h]

theorem limitArgs_eq_nil {r : RuleForm} (h : r.limitRate = "") : limitArgs r = [] := by
  unfold limitArgs
  rw [if_pos h]

/-- C1.  For every rule, the compiled command carries a port argument
exactly when the protocol is `tcp` or `udp` and a port is set: a port
without a comma is emitted as `--dport {port}`, a comma-delimited list as
`-m multiport --dports {port}`, and otherwise no `--dport`/`--dports`
token appears anywhere in the command (the port data is dropped).  The
side condition `hclean` rules out the degenerate forms whose other fields
literally contain the option strings themselves. -/
theorem port_emission_c1 (r : RuleForm)
    (hclean : "--dport" ∉ fieldVals r ∧ "--dports" ∉ fieldVals r) :
    (r.port ≠ "" ∧ (r.protocol = "tcp" ∨ r.protocol = "udp") →
      (r.port.data.contains ',' = false →
        ∃ pre post, compileRule r = pre ++ ["--dport", r.port] ++ post) ∧
      (r.port.data.contains ',' = true →
        ∃ pre post, compileRule r = pre ++ ["-m", "multiport", "--dports", r.port] ++ post)) ∧
    (¬(r.port ≠ "" ∧ (r.protocol = "tcp" ∨ r.protocol = "udp")) →
      "--dport" ∉ compileRule r ∧ "--dports" ∉ compileRule r) := by
  constructor
  · intro hg
    constructor
    · intro hc
      refine ⟨["-t", effTable r, "-A", effChain r] ++ protoArgs r ++ srcArgs r ++
        dstArgs r ++ inIfaceArgs r ++ outIfaceArgs r ++ stateArgs r,
        limitArgs r ++ ["-j", effAction r] ++ dnatArgs r ++ snatArgs r ++
        redirArgs r ++ logArgs r ++ rejectArgs r, ?_⟩
      have hp : portArgs r = ["--dport", r.port] := by
        unfold portArgs
        rw [if_pos hg, if_neg (by simpa using hc)]
      simp [compileRule, hp]
    · intro hc
      refine ⟨["-t", effTable r, "-A", effChain r] ++ protoArgs r ++ srcArgs r ++
        dstArgs r ++ inIfaceArgs r ++ outIfaceArgs r ++ stateArgs r,
        limitArgs r ++ ["-j", effAction r] ++ dnatArgs r ++ snatArgs r ++
        redirArgs r ++ logArgs r ++ rejectArgs r, ?_⟩
      have hp : portArgs r = ["-m", "multiport", "--dports", r.port] := by
        unfold portArgs
        rw [if_pos hg, if_pos (by simpa using hc)]
      simp [compileRule, hp]
  · intro hg
    have hnil := portArgs_eq_nil hg
    constructor
    · intro hmem
      rcases compile_mem_cases hmem with h | h | h | h
      · rw [hnil] at h
        simp at h
      · rcases mem_limitArgs h with h | h
        · simp at h
        · exact hclean.1 h
      · exact hclean.1 h
      · simp [otherLits] at h
    · intro hmem
      rcases compile_mem_cases hmem with h | h | h | h
      · rw [hnil] at h
        simp at h
      · rcases mem_limitArgs h with h | h
        · simp at h
        · exact hclean.2 h
      · exact hclean.2 h
      · simp [otherLits] at h

/-- Witness for C1 at the spec's own round-trip examples: a `tcp` rule
with port range `8000:8080` compiles to a command containing
`--dport 8000:8080`, and an `icmp` rule with port `80` compiles to a
command with no port token at all. -/
theorem port_emission_c1_witness :
    (∃ pre post,
      compileRule { emptyRule with protocol := "tcp", port := "8000:8080" } =
        pre ++ ["--dport", "8000:8080"] ++ post) ∧
    "--dport" ∉ compileRule { emptyRule with protocol := "icmp", port := "80" } ∧
    "--dports" ∉ compileRule { emptyRule with protocol := "icmp", port := "80" } := by
  refine ⟨((port_emission_c1 { emptyRule with protocol := "tcp", port := "8000:8080" }
      (by constructor <;> simp [fieldVals, effTable, effChain, effAction, emptyRule])).1
      (by constructor <;> simp [emptyRule]) ).1 rfl,
    (port_emission_c1 { emptyRule with protocol := "icmp", port := "80" }
      (by constructor <;> simp [fieldVals, effTable, effChain, effAction, emptyRule])).2
      (by simp [emptyRule])⟩

theorem dnatArgs_eq_nil {r : RuleForm} (h : effAction r ≠ "DNAT") : dnatArgs r = [] := by
  unfold dnatArgs
  rw [if_neg (fun hc => h hc.1)]

theorem snatArgs_eq_nil {r : RuleForm} (h : effAction r ≠ "SNAT") : snatArgs r = [] := by
  unfold snatArgs
  rw [if_neg (fun hc => h hc.1)]

theorem redirArgs_eq_nil {r : RuleForm}
    (h : effAction r ≠ "REDIRECT") (h' : effAction r ≠ "MASQUERADE") : redirArgs r = [] := by
  unfold redirArgs
  rw [if_neg (fun hc => hc.1.elim h h')]

theorem logArgs_eq_nil {r : RuleForm} (h : effAction r ≠ "LOG") : logArgs r = [] := by
  unfold logArgs
  rw [if_neg h]

theorem rejectArgs_eq_nil {r : RuleForm} (h : r.rejectWith = "") : rejectArgs r = [] := by
  unfold rejectArgs
  rw [if_neg (fun hc => hc.2 h)]

/-- C2 counterexample.  A rule with the non-empty comment `block telnet`
compiles to a command that carries no comment-module argument at all —
in particular the token list does not end with
`-m comment --comment block telnet`: `updateIptablesPreview` never reads
the `rule-comment` field. -/
theorem comment_dropped_cex_c2 :
    ({ emptyRule with comment := "block telnet" } : RuleForm).comment = "block telnet" ∧
    compileRule { emptyRule with comment := "block telnet" } =
      ["-t", "filter", "-A", "INPUT", "-j", "ACCEPT"] ∧
    "--comment" ∉ compileRule { emptyRule with comment := "block telnet" } ∧
    "-m" ∉ compileRule { emptyRule with comment := "block telnet" } := by
  have h : compileRule { emptyRule with comment := "block telnet" } =
      ["-t", "filter", "-A", "INPUT", "-j", "ACCEPT"] := rfl
  refine ⟨rfl, h, ?_, ?_⟩ <;> rw [h] <;> decide

/-- C2 amended.  The compiled command never carries the comment: the
compiler's output is entirely independent of the `comment` field, and no
`--comment` token ever appears (for any rule whose other fields do not
literally contain the string `--comment`). -/
theorem comment_never_emitted_c2 (r : RuleForm) (c : String) :
    compileRule { r with comment := c } = compileRule r ∧
    ("--comment" ∉ fieldVals r → "--comment" ∉ compileRule r) := by
  constructor
  · rfl
  · intro hf hmem
    rcases compile_mem_cases hmem with h | h | h | h
    · rcases mem_portArgs h with h | h
      · simp at h
      · exact hf h
    · rcases mem_limitArgs h with h | h
      · simp at h
      · exact hf h
    · exact hf h
    · simp [otherLits] at h

/-- Witness for the amended C2 at a concrete rule: the `block telnet`
comment changes nothing and no `--comment` token is present. -/
theorem comment_never_emitted_c2_witness :
    compileRule { emptyRule with comment := "block telnet" } = compileRule emptyRule ∧
    "--comment" ∉ compileRule { emptyRule with comment := "block telnet" } :=
  ⟨(comment_never_emitted_c2 emptyRule "block telnet").1,
   (comment_never_emitted_c2 { emptyRule with comment := "block telnet" } "x").2
     (by simp [fieldVals, effTable, effChain, effAction, emptyRule])⟩

/-- C3 counterexample.  A REJECT rule with `reject_with` unset compiles
to a command that contains no `--reject-with` token and in particular no
`icmp-port-unreachable` value: the source only appends `--reject-with`
when the field is set (`if (action === 'REJECT' && rejectWith)`), so no
default is spelled out in the compiled command. -/
theorem reject_default_cex_c3 :
    ({ emptyRule with action := "REJECT" } : RuleForm).rejectWith = "" ∧
    compileRule { emptyRule with action := "REJECT" } =
      ["-t", "filter", "-A", "INPUT", "-j", "REJECT"] ∧
    "--reject-with" ∉ compileRule { emptyRule with action := "REJECT" } ∧
    "icmp-port-unreachable" ∉ compileRule { emptyRule with action := "REJECT" } := by
  have h : compileRule { emptyRule with action := "REJECT" } =
      ["-t", "filter", "-A", "INPUT", "-j", "REJECT"] := rfl
  refine ⟨rfl, h, ?_, ?_⟩ <;> rw [h] <;> decide

/-- C3 amended.  For a REJECT rule, when `reject_with` is unset no
`--reject-with` token is emitted — the command simply ends at
`-j REJECT` and the kernel-side default (`icmp-port-unreachable`) is left
implicit; when `reject_with` is set, `--reject-with {value}` is appended
after `-j REJECT`. -/
theorem reject_emission_c3 (r : RuleForm) (ha : r.action = "REJECT") :
    (r.rejectWith = "" → ∃ pre, compileRule r = pre ++ ["-j", "REJECT"]) ∧
    (r.rejectWith ≠ "" →
      ∃ pre, compileRule r = pre ++ ["-j", "REJECT", "--reject-with", r.rejectWith]) := by
  have heff : effAction r = "REJECT" := by simp [effAction, ha]
  have hd := dnatArgs_eq_nil (r := r) (by rw [heff]; decide)
  have hs := snatArgs_eq_nil (r := r) (by rw [heff]; decide)
  have hr := redirArgs_eq_nil (r := r) (by rw [heff]; decide) (by rw [heff]; decide)
  have hl := logArgs_eq_nil (r := r) (by rw [heff]; decide)
  constructor
  · intro hw
    refine ⟨["-t", effTable r, "-A", effChain r] ++ protoArgs r ++ srcArgs r ++
      dstArgs r ++ inIfaceArgs r ++ outIfaceArgs r ++ stateArgs r ++ portArgs r ++
      limitArgs r, ?_⟩
    have hj := rejectArgs_eq_nil (r := r) hw
    simp [compileRule, heff, hd, hs, hr, hl, hj]
  · intro hw
    refine ⟨["-t", effTable r, "-A", effChain r] ++ protoArgs r ++ srcArgs r ++
      dstArgs r ++ inIfaceArgs r ++ outIfaceArgs r ++ stateArgs r ++ portArgs r ++
      limitArgs r, ?_⟩
    have hj : rejectArgs r = ["--reject-with", r.rejectWith] := by
      unfold rejectArgs
      rw [if_pos ⟨heff, hw⟩]
    simp [compileRule, heff, hd, hs, hr, hl, hj]

/-- Witness for the amended C3: with `reject_with` unset the command ends
at `-j REJECT`; with `reject_with = tcp-reset` the command ends with
`--reject-with tcp-reset`. -/
theorem reject_emission_c3_witness :
    (∃ pre, compileRule { emptyRule with action := "REJECT" } = pre ++ ["-j", "REJECT"]) ∧
    (∃ pre, compileRule { emptyRule with action := "REJECT", rejectWith := "tcp-reset" } =
      pre ++ ["-j", "REJECT", "--reject-with", "tcp-reset"]) :=
  ⟨(reject_emission_c3 { emptyRule with action := "REJECT" } rfl).1 rfl,
   (reject_emission_c3 { emptyRule with action := "REJECT", rejectWith := "tcp-reset" } rfl).2
     (by decide)⟩

/-- A LOG rule whose prefix is 30 characters long, from the form fields. -/
def logRule30 : RuleForm :=
  { emptyRule with action := "LOG", logPfx := "ABCDEFGHIJKLMNOPQRSTUVWXYZ0123", logLevel := "4" }

/-- C6 counterexample.  A LOG rule whose prefix is 30 characters long
compiles to a command carrying the entire 30-character prefix between
the quotes: `updateIptablesPreview` applies no 29-character limit (there
is no truncation or `maxlength` anywhere in the source). -/
theorem log_truncation_cex_c6 :
    29 < logRule30.logPfx.length ∧
    compileRule logRule30 =
      ["-t", "filter", "-A", "INPUT", "-j", "LOG", "--log-prefix",
       "\"ABCDEFGHIJKLMNOPQRSTUVWXYZ0123\"", "--log-level", "4"] := by
  exact ⟨by decide, rfl⟩

/-- C6 amended.  For a LOG rule the compiled command emits
`--log-prefix` with the prefix quoted but otherwise verbatim — with no
length limit — whenever the prefix is non-empty, and emits
`--log-level {level}` whenever a level is set. -/
theorem log_emission_c6 (r : RuleForm) (ha : r.action = "LOG") :
    (r.logPfx ≠ "" → ∃ pre post,
      compileRule r = pre ++ ["--log-prefix", "\"" ++ r.logPfx ++ "\""] ++ post) ∧
    (r.logLevel ≠ "" → ∃ pre post,
      compileRule r = pre ++ ["--log-level", r.logLevel] ++ post) := by
  have heff : effAction r = "LOG" := by simp [effAction, ha]
  constructor
  · intro hp
    refine ⟨["-t", effTable r, "-A", effChain r] ++ protoArgs r ++ srcArgs r ++
      dstArgs r ++ inIfaceArgs r ++ outIfaceArgs r ++ stateArgs r ++ portArgs r ++
      limitArgs r ++ ["-j", effAction r] ++ dnatArgs r ++ snatArgs r ++ redirArgs r,
      (if r.logLevel = "" then [] else ["--log-level", r.logLevel]) ++ rejectArgs r, ?_⟩
    have hl : logArgs r = ["--log-prefix", "\"" ++ r.logPfx ++ "\""] ++
        (if r.logLevel = "" then [] else ["--log-level", r.logLevel]) := by
      unfold logArgs
      rw [if_pos heff, if_neg hp]
    simp [compileRule, hl]
  · intro hv
    refine ⟨["-t", effTable r, "-A", effChain r] ++ protoArgs r ++ srcArgs r ++
      dstArgs r ++ inIfaceArgs r ++ outIfaceArgs r ++ stateArgs r ++ portArgs r ++
      limitArgs r ++ ["-j", effAction r] ++ dnatArgs r ++ snatArgs r ++ redirArgs r ++
      (if r.logPfx = "" then [] else ["--log-prefix", "\"" ++ r.logPfx ++ "\""]),
      rejectArgs r, ?_⟩
    have hl : logArgs r =
        (if r.logPfx = "" then [] else ["--log-prefix", "\"" ++ r.logPfx ++ "\""]) ++
        ["--log-level", r.logLevel] := by
      unfold logArgs
      rw [if_pos heff, if_neg hv]
    simp [compileRule, hl]

/-- A concrete LOG rule with prefix and level set. -/
def logRuleSmall : RuleForm :=
  { emptyRule with action := "LOG", logPfx := "[DROP] ", logLevel := "4" }

/-- Witness for the amended C6 at a concrete LOG rule. -/
theorem log_emission_c6_witness :
    (∃ pre post, compileRule logRuleSmall =
      pre ++ ["--log-prefix", "\"[DROP] \""] ++ post) ∧
    (∃ pre post, compileRule logRuleSmall =
      pre ++ ["--log-level", "4"] ++ post) :=
  ⟨(log_emission_c6 logRuleSmall rfl).1 (by decide),
   (log_emission_c6 logRuleSmall rfl).2 (by decide)⟩

/-- C10.  The limit segment is only emitted when `limit_rate` is set: if
the rate is empty then neither `--limit` nor `--limit-burst` appears in
the compiled command, no matter what `limit_burst` holds (the source
nests `if (limitBurst)` inside `if (limitRate)`).  The side condition
`hclean` rules out other fields literally containing these option
strings. -/
theorem limit_burst_requires_rate_c10 (r : RuleForm)
    (hclean : "--limit" ∉ fieldVals r ∧ "--limit-burst" ∉ fieldVals r)
    (hrate : r.limitRate = "") :
    "--limit" ∉ compileRule r ∧ "--limit-burst" ∉ compileRule r := by
  have hnil := limitArgs_eq_nil hrate
  constructor
  · intro hmem
    rcases compile_mem_cases hmem with h | h | h | h
    · rcases mem_portArgs h with h | h
      · simp at h
      · exact hclean.1 h
    · rw [hnil] at h
      simp at h
    · exact hclean.1 h
    · simp [otherLits] at h
  · intro hmem
    rcases compile_mem_cases hmem with h | h | h | h
    · rcases mem_portArgs h with h | h
      · simp at h
      · exact hclean.2 h
    · rw [hnil] at h
      simp at h
    · exact hclean.2 h
    · simp [otherLits] at h

/-- Witness for C10: a rule with `limit_burst = 5` but no rate compiles
to a command with neither `--limit` nor `--limit-burst`. -/
theorem limit_burst_requires_rate_c10_witness :
    "--limit" ∉ compileRule { emptyRule with limitBurst := "5" } ∧
    "--limit-burst" ∉ compileRule { emptyRule with limitBurst := "5" } :=
  limit_burst_requires_rate_c10 { emptyRule with limitBurst := "5" }
    (by constructor <;> simp [fieldVals, effTable, effChain, effAction, emptyRule]) rfl

/-- A module-contributed chain as held by the modules view
(src/frontend/assets/js/views/modules.js): `table_name`, `parent_chain`,
`chain_name` and an integer `priority` (JavaScript number). -/
structure ModuleChain where
  id : String
  table_name : String
  parent_chain : String
  chain_name : String
  priority : Int
deriving DecidableEq, Repr

/-- The ordering used by `renderFirewallPriority`'s
`chains.sort((a, b) => a.priority - b.priority)`: ascending priority. -/
def chainLe (a b : ModuleChain) : Prop := a.priority ≤ b.priority

instance : DecidableRel chainLe :=
  fun a b => inferInstanceAs (Decidable (a.priority ≤ b.priority))

/-- Listing a (table, parent_chain) group of module chains: the stable
ascending-priority sort `chains.sort((a, b) => a.priority - b.priority)`
of `renderFirewallPriority` (src/frontend/assets/js/views/modules.js
lines 663-668). -/
def sortByPriority (cs : List ModuleChain) : List ModuleChain :=
  List.insertionSort chainLe cs

/-- The Sortable `onEnd` handler of `renderFirewallPriority`
(src/frontend/assets/js/views/modules.js lines 726-751): walking the list
items in their new visual order, each chain at zero-based `index` is
assigned `newPriority = (index + 1) * 10`; the resulting id/priority
pairs are persisted via `PUT /firewall/chains/order`.  `reorderAssign i
cs` performs the assignment starting at index `i`. -/
def reorderAssign : Nat → List ModuleChain → List ModuleChain
  | _, [] => []
  | i, c :: rest => { c with priority := ((i : Int) + 1) * 10 } :: reorderAssign (i + 1) rest

theorem reorderAssign_length (n : Nat) (cs : List ModuleChain) :
    (reorderAssign n cs).length = cs.length := by
  induction cs generalizing n with
  | nil => rfl
  | cons c rest ih => simp [reorderAssign, ih]

theorem reorderAssign_map_id (n : Nat) (cs : List ModuleChain) :
    (reorderAssign n cs).map (fun c => c.id) = cs.map (fun c => c.id) := by
  induction cs generalizing n with
  | nil => rfl
  | cons c rest ih => simp [reorderAssign, ih]

theorem reorderAssign_map_priority (n : Nat) (cs : List ModuleChain) :
    (reorderAssign n cs).map (fun c => c.priority) =
      (List.range cs.length).map (fun i => ((n + i + 1 : Nat) : Int) * 10) := by
  induction cs generalizing n with
  | nil => rfl
  | cons c rest ih =>
    simp only [reorderAssign, List.map_cons, List.length_cons, List.range_succ_eq_map,
      List.map_map, ih]
    congr 1
    apply List.map_congr_left
    intro i _
    simp only [Function.comp_apply]
    push_cast
    ring

theorem reorderAssign_priority_lb {n : Nat} {cs : List ModuleChain} {x : ModuleChain}
    (h : x ∈ reorderAssign n cs) : ((n : Int) + 1) * 10 ≤ x.priority := by
  induction cs generalizing n with
  | nil => simp [reorderAssign] at h
  | cons c rest ih =>
    simp only [reorderAssign, List.mem_cons] at h
    rcases h with rfl | h
    · simp
    · have hlb := ih h
      push_cast at hlb ⊢
      linarith

theorem reorderAssign_sorted (n : Nat) (cs : List ModuleChain) :
    List.Sorted chainLe (reorderAssign n cs) := by
  induction cs generalizing n with
  | nil => exact List.sorted_nil
  | cons c rest ih =>
    simp only [reorderAssign]
    refine List.sorted_cons.2 ⟨?_, ih (n + 1)⟩
    intro b hb
    have hlb := reorderAssign_priority_lb hb
    unfold chainLe
    simp only
    push_cast at hlb ⊢
    linarith

/-- C5.  Reordering the module chains of a (table, parent_chain) group by
handing the chains over in their new order: the chain at zero-based
index `i` is assigned priority `(i + 1) * 10` (same ids, same order), and
the ascending-priority listing of the group then presents the chains
exactly in the given order — the chain listed first in the reorder comes
first.  The persistence round trip of `PUT /firewall/chains/order` is
assumed to store the posted priorities unchanged. -/
theorem reorder_then_sort_c5 (cs : List ModuleChain) :
    (reorderAssign 0 cs).map (fun c => c.id) = cs.map (fun c => c.id) ∧
    (reorderAssign 0 cs).map (fun c => c.priority) =
      (List.range cs.length).map (fun i => ((i + 1 : Nat) : Int) * 10) ∧
    sortByPriority (reorderAssign 0 cs) = reorderAssign 0 cs := by
  refine ⟨reorderAssign_map_id 0 cs, ?_, ?_⟩
  · have h := reorderAssign_map_priority 0 cs
    simpa using h
  · exact (reorderAssign_sorted 0 cs).insertionSort_eq

/-- The module chains registered under a given (table, parent_chain), as
grouped by `renderFirewallPriority`'s `chainsStructure`. -/
def chainsFor (table parent : String) (cs : List ModuleChain) : List ModuleChain :=
  cs.filter (fun c => c.table_name == table && c.parent_chain == parent)

/-- Modelled from the spec: the Chain Synchronizer's managed jump block
of a base chain (the backend that builds it is not under src/).  Per the
spec and the repository README ("MADMIN rules are processed first
(highest priority)", "MAIN CHAINS ... MADMIN_* chains ... MOD_*_*
chains, priority ordered"), the base chain jumps first to the core chain
`MADMIN_{parent}` and then to each registered module chain of that
(table, parent_chain), ascending by priority. -/
def baseChainJumps (table parent : String) (cs : List ModuleChain) : List String :=
  ("MADMIN_" ++ parent) ::
    (sortByPriority (chainsFor table parent cs)).map (fun c => c.chain_name)

/-- C8.  In every configuration, the jump to the core chain is the head
of the base chain's managed jump block, and the jump to any module chain
of that (table, parent_chain) appears strictly after it, regardless of
the module chains' priority values. -/
theorem core_jump_head_c8 (table parent : String) (cs : List ModuleChain) (c : ModuleChain)
    (hc : c ∈ cs) (ht : c.table_name = table) (hp : c.parent_chain = parent) :
    (baseChainJumps table parent cs).head? = some ("MADMIN_" ++ parent) ∧
    c.chain_name ∈ (baseChainJumps table parent cs).tail := by
  refine ⟨rfl, ?_⟩
  have h1 : c ∈ chainsFor table parent cs := by
    simp [chainsFor, List.mem_filter, hc, ht, hp]
  have h2 : c ∈ sortByPriority (chainsFor table parent cs) := by
    simpa [sortByPriority] using (List.mem_insertionSort chainLe).2 h1
  exact List.mem_map_of_mem _ h2

/-- A concrete module chain used as C8 witness. -/
def vpnChain : ModuleChain := ⟨"A", "filter", "INPUT", "MOD_VPN_INPUT", 10⟩

/-- Witness for C8: with one registered module chain under
(filter, INPUT), the core jump is first and the module jump after it. -/
theorem core_jump_head_c8_witness :
    (baseChainJumps "filter" "INPUT" [vpnChain]).head? = some "MADMIN_INPUT" ∧
    "MOD_VPN_INPUT" ∈ (baseChainJumps "filter" "INPUT" [vpnChain]).tail :=
  core_jump_head_c8 "filter" "INPUT" [vpnChain] vpnChain (by simp) rfl rfl

example :
    (sortByPriority (reorderAssign 0
      [⟨"B", "filter", "INPUT", "MOD_B", 20⟩, ⟨"A", "filter", "INPUT", "MOD_A", 10⟩])).map
        (fun c => c.id) = ["B", "A"] := rfl

/-- Actions available per table, from the firewall view's `TABLE_ACTIONS`
(src/unnamed/part_004 lines 51-57). -/
def tableActions (t : String) : List String :=
  if t = "filter" then ["ACCEPT", "DROP", "REJECT", "LOG"]
  else if t = "nat" then ["SNAT", "DNAT", "MASQUERADE", "REDIRECT", "ACCEPT"]
  else if t = "mangle" then ["MARK", "TOS", "TTL", "ACCEPT"]
  else if t = "raw" then ["NOTRACK", "ACCEPT"]
  else []

/-- Result of `createRule`: either the validated rule together with the
kernel commands the synchronizer would run for it, or `invalidRule`
(carrying no command, so no kernel call is attempted). -/
inductive CreateResult where
  | created (commands : List (List String))
  | invalidRule
deriving DecidableEq, Repr

/-- Modelled from the spec: the backend `createRule` validation (the
FastAPI backend is not part of the repository snapshot; the frontend
`handleRuleSubmit` posts the form unvalidated to `POST /firewall/rules`).
Per the spec, `createRule` signals `InvalidRule` if the action is outside
the allowed set for the table (the sets are the source's
`TABLE_ACTIONS`), or if a mandatory action-specific field is missing:
`DNAT` requires `to_destination` and `SNAT` requires `to_source`; only a
valid rule proceeds to a compiled kernel command. -/
def createRule (r : RuleForm) : CreateResult :=
  if r.action ∈ tableActions r.table then
    if r.action = "DNAT" ∧ r.toDest = "" then .invalidRule
    else if r.action = "SNAT" ∧ r.toSource = "" then .invalidRule
    else .created [compileRule r]
  else .invalidRule

/-- C4.  `createRule` rejects with `InvalidRule` — producing no kernel
command — every rule whose action is outside the allowed set for its
table, every DNAT rule without `to_destination`, and every SNAT rule
without `to_source`. -/
theorem createRule_invalid_c4 (r : RuleForm)
    (h : r.action ∉ tableActions r.table ∨ (r.action = "DNAT" ∧ r.toDest = "") ∨
      (r.action = "SNAT" ∧ r.toSource = "")) :
    createRule r = .invalidRule := by
  unfold createRule
  split_ifs with h1 h2 h3 <;> first | rfl | tauto

/-- Witness for C4 at the spec's validation examples: a nat/DNAT rule
with no `to_destination` and a nat/SNAT rule with no `to_source` are both
rejected, and so is a filter-table rule with the nat-only action SNAT. -/
theorem createRule_invalid_c4_witness :
    createRule { emptyRule with table := "nat", action := "DNAT" } = .invalidRule ∧
    createRule { emptyRule with table := "nat", action := "SNAT" } = .invalidRule ∧
    createRule { emptyRule with table := "filter", action := "SNAT" } = .invalidRule :=
  ⟨createRule_invalid_c4 _ (Or.inr (Or.inl ⟨rfl, rfl⟩)),
   createRule_invalid_c4 _ (Or.inr (Or.inr ⟨rfl, rfl⟩)),
   createRule_invalid_c4 _ (Or.inl (by decide))⟩

/-- One stored rule of a (table, chain) group: its id and its `order`
position (other fields do not matter for the ordering invariant). -/
structure StoredRule where
  id : Nat
  order : Nat
deriving DecidableEq, Repr

/-- Ascending current `order`, the sort key the views use
(`.sort((a, b) => a.order - b.order)` in `renderRules`). -/
def ruleLe (a b : StoredRule) : Prop := a.order ≤ b.order

instance : DecidableRel ruleLe :=
  fun a b => inferInstanceAs (Decidable (a.order ≤ b.order))

/-- Reindex a list of rules with consecutive `order` values starting at
`n`. -/
def assignOrd : Nat → List StoredRule → List StoredRule
  | _, [] => []
  | n, r :: rest => { r with order := n } :: assignOrd (n + 1) rest

/-- Modelled from the spec: the backend synchronizer's renormalization of
a (table, chain) group (not under src/; the frontend only displays the
group sorted by `order` and posts reorder requests).  Per the spec, after
any insert/delete/reorder the group's `order` values are renormalized to
the contiguous range `0..n-1`, preserving the current relative order:
stable-sort by the current `order`, then reindex from zero. -/
def renormalize (g : List StoredRule) : List StoredRule :=
  assignOrd 0 (List.insertionSort ruleLe g)

/-- A mutation of one (table, chain) group, per the spec's operation
surface: add a rule, edit a rule, delete a rule, or move a rule to a new
order. -/
inductive GroupMutation where
  | add (r : StoredRule)
  | edit (rid : Nat) (newRule : StoredRule)
  | del (rid : Nat)
  | move (rid : Nat) (newOrder : Nat)
deriving DecidableEq, Repr

/-- Modelled from the spec: applying a mutation to a (table, chain)
group always ends with the synchronizer's renormalization. -/
def applyMutation : GroupMutation → List StoredRule → List StoredRule
  | .add r, g => renormalize (g ++ [r])
  | .edit rid nr, g => renormalize (g.map (fun x => if x.id = rid then nr else x))
  | .del rid, g => renormalize (g.filter (fun x => x.id ≠ rid))
  | .move rid newOrder, g =>
      renormalize (g.map (fun x => if x.id = rid then { x with order := newOrder } else x))

theorem assignOrd_map_order (n : Nat) (l : List StoredRule) :
    (assignOrd n l).map (fun x => x.order) = List.range' n l.length := by
  induction l generalizing n with
  | nil => rfl
  | cons r rest ih => simp [assignOrd, List.range', ih]

theorem assignOrd_length (n : Nat) (l : List StoredRule) :
    (assignOrd n l).length = l.length := by
  induction l generalizing n with
  | nil => rfl
  | cons r rest ih => simp [assignOrd, ih]

theorem renormalize_orders (g : List StoredRule) :
    (renormalize g).map (fun x => x.order) = List.range (renormalize g).length := by
  unfold renormalize
  rw [assignOrd_map_order, List.range_eq_range', assignOrd_length]

/-- C7.  After every mutation of a (table, chain) group — add, edit,
delete, or reorder — the `order` values of the group are exactly
`0..n-1`, with no gaps and no duplicates. -/
theorem orders_contiguous_c7 (m : GroupMutation) (g : List StoredRule) :
    (applyMutation m g).map (fun x => x.order) =
      List.range (applyMutation m g).length := by
  cases m <;> exact renormalize_orders _

/-- The firewall state visible to `save-iptables.sh`: the current IPv4
dump produced by `iptables-save`, and the IPv6 dump produced by
`ip6tables-save` when that command succeeds (`none` models its failure,
e.g. no IPv6 firewall support loaded). -/
structure FwEnv where
  v4dump : List String
  v6dump : Option (List String)
deriving DecidableEq, Repr

/-- The persistent artifacts under `/etc/iptables`: the contents of
`rules.v4` and `rules.v6` (`none` = file absent). -/
structure RulesDir where
  rulesV4 : Option (List String)
  rulesV6 : Option (List String)
deriving DecidableEq, Repr

/-- src/scripts/save-iptables.sh, line by line:
`iptables-save > $RULES_DIR/rules.v4` writes the full IPv4 dump;
`ip6tables-save > $RULES_DIR/rules.v6 2>/dev/null || true` opens
(truncates) `rules.v6`, writes the IPv6 dump when `ip6tables-save`
succeeds and leaves the file empty when it fails, and the `|| true`
(with stderr discarded) suppresses the failure so the script continues
and exits successfully either way.  The returned flag is the script's
success. -/
def saveIptables (env : FwEnv) (fs : RulesDir) : RulesDir × Bool :=
  let fs1 : RulesDir := { fs with rulesV4 := some env.v4dump }
  let fs2 : RulesDir :=
    match env.v6dump with
    | some d => { fs1 with rulesV6 := some d }
    | none => { fs1 with rulesV6 := some [] }
  (fs2, true)

/-- C9.  `save()` always writes the full current IPv4 dump to
`rules.v4`, and always succeeds: an `ip6tables-save` failure is
suppressed by `|| true` (so it neither fails the script nor undoes the
IPv4 snapshot, only leaving `rules.v6` without a dump), while on success
the IPv6 dump lands in `rules.v6`. -/
theorem save_v4_always_v6_best_effort_c9 (env : FwEnv) (fs : RulesDir) :
    (saveIptables env fs).1.rulesV4 = some env.v4dump ∧
    (saveIptables env fs).2 = true ∧
    (saveIptables env fs).1.rulesV6 = some (env.v6dump.getD []) := by
  unfold saveIptables
  cases env.v6dump <;> simp
